import Mathlib

/-!
Verification of the burrowcode media-processing pipeline against its
natural-language specification.  Go strings are modelled as `List Char`
(rune sequences); Go `float64` quantities are modelled as exact rationals
(`ℚ`, with kernel-computable `qdiv`/`qmul`); fallible operations return
`Except`/`Option`; the Processor's task handler is embedded as a trace
semantics over an environment of I/O oracles.  Definitions come first
(each names the Go function it embeds), followed by the supporting lemmas
and the claim theorems C1-C10.
-/

/-- The `{` character (written via code point to keep it out of string
literals). -/

def lbrace : Char := Char.ofNat 123

/-- The `}` character. -/

def rbrace : Char := Char.ofNat 125

/-- The `"` character. -/

def dquote : Char := Char.ofNat 34

/-- The `'` character. -/

def squote : Char := Char.ofNat 39

/-- The NUL rune, Go's `rune(0)`, used as the tokenizer's empty quote mark. -/

def nulChar : Char := Char.ofNat 0

/-- Go `strings.Contains(s, pat)`: `pat` occurs as a contiguous substring. -/

def goContains (s pat : List Char) : Bool :=
  match s with
  | [] => pat.isEmpty
  | _ :: rest => pat.isPrefixOf s || goContains rest pat

/-- Go `strings.HasPrefix`. -/

def goHasPrefix (s pre : List Char) : Bool := pre.isPrefixOf s

/-- Fuel-indexed scanner behind `replaceAll` (the fuel, at least the
length of `s`, makes the recursion structural so that it computes in the
kernel). -/

def replaceAllF : Nat → List Char → List Char → List Char → List Char
  | 0, s, _, _ => s
  | fuel + 1, s, old, new =>
    match s with
    | [] => []
    | c :: rest =>
      if old ≠ [] ∧ old.isPrefixOf (c :: rest) then
        new ++ replaceAllF fuel ((c :: rest).drop old.length) old new
      else
        c :: replaceAllF fuel rest old new

/-- Go `strings.ReplaceAll(s, old, new)`: scan left to right, replace each
non-overlapping occurrence of `old`, never rescanning replacement text.
(Go's special case of an empty `old` inserts `new` between runes; the
callers below always pass a non-empty `old`.) -/

def replaceAll (s old new : List Char) : List Char :=
  replaceAllF s.length s old new

/-- Go `strings.TrimPrefix(s, pre)`. -/

def goTrimPrefix (s pre : List Char) : List Char :=
  if pre.isPrefixOf s then s.drop pre.length else s

/-- Go `strings.ToLower` (ASCII suffices for every call site below). -/

def goToLower (s : List Char) : List Char := s.map Char.toLower

/-- Go `strings.TrimSpace` (the claims only exercise ASCII whitespace). -/

def goTrimSpace (s : List Char) : List Char :=
  (s.dropWhile Char.isWhitespace).reverse.dropWhile Char.isWhitespace |>.reverse

/-- Helper for `filepath.Ext`: walk the reversed path, collecting the
suffix until a dot (return it) or a path separator / start (no extension). -/

def extAux : List Char → List Char → List Char
  | [], _ => []
  | c :: rest, acc =>
    if c = '/' then []
    else if c = '.' then c :: acc
    else extAux rest (c :: acc)

/-- Go `path/filepath.Ext(path)`: the suffix beginning at the final dot in
the final slash-separated element; empty if there is no dot. -/

def goExt (s : List Char) : List Char := extAux s.reverse []

/-- Go `path/filepath.Join(a, b)` for the clean, non-empty components used
by the worker (`Join` also runs `Clean`, which is the identity on them). -/

def goJoin (a b : List Char) : List Char := a ++ '/' :: b

/-- Go map read `m[k]` over the association-list model of a map. -/

def lookupA {β : Type} (m : List (List Char × β)) (k : List Char) :
    Option β :=
  match m with
  | [] => none
  | (k2, v) :: rest => if k2 = k then some v else lookupA rest k

/-- Exact-rational model of Go float64 division (`Rat.divInt` form,
which the kernel evaluates; the `Division ℚ` instance does not reduce). -/

def qdiv (a b : ℚ) : ℚ := Rat.divInt (a.num * b.den) (a.den * b.num)

/-- Exact-rational model of Go float64 multiplication. -/

def qmul (a b : ℚ) : ℚ :=
  Rat.divInt (a.num * b.num) ((a.den : Int) * (b.den : Int))

/-- Digits of a natural number, for Go's `%d` formatting. -/

def natDigits (n : Nat) : List Char :=
  (Nat.toDigits 10 n)

/-- Go `strconv.ParseInt(value, 10, 64)` as used by the progress parser:
the parsed value on success and `0` on a syntax error (the callers discard
the error, keeping the zero value).  The 64-bit range clamp is not
modelled; every value in scope fits. -/

def parseIntGo (s : List Char) : Int :=
  let core : List Char → Option Nat := fun ds =>
    if ds = [] then none
    else if ds.all Char.isDigit then
      some (ds.foldl (fun acc c => acc * 10 + (c.toNat - 48)) 0)
    else none
  match s with
  | '-' :: rest => match core rest with
    | some n => -(n : Int)
    | none => 0
  | '+' :: rest => match core rest with
    | some n => (n : Int)
    | none => 0
  | _ => match core s with
    | some n => (n : Int)
    | none => 0

/-- The placeholder string `{{key}}` built in `expandPlaceholders`. -/

def placeholderOf (key : List Char) : List Char :=
  lbrace :: lbrace :: (key ++ [rbrace, rbrace])

/-- `expandPlaceholders(cmd, inputs, outputs)`: for each `(key, path)` of
the input map then the output map, substring-replace `{{key}}` by `path`.
Go map iteration order is unspecified; the maps are modelled as
association lists carrying one fixed iteration order. -/

def expandPlaceholders (cmd : List Char)
    (inputs outputs : List (List Char × List Char)) : List Char :=
  (inputs ++ outputs).foldl
    (fun acc kv => replaceAll acc (placeholderOf kv.1) kv.2) cmd

/-- Scanner state of `parseCommandArgs`: accumulated args, the current
builder, whether inside a quoted region, and the active quote rune. -/

structure ScanState where
  args : List (List Char)
  current : List Char
  inQuote : Bool
  quoteChar : Char
deriving Repr, DecidableEq

/-- Initial scanner state (`quoteChar = rune(0)`). -/

def scanInit : ScanState := ⟨[], [], false, nulChar⟩

/-- One step of `parseCommandArgs`' rune loop, mirroring the Go `switch`
case order: open quote, close quote, space flush, default write. -/

def scanStep (st : ScanState) (r : Char) : ScanState :=
  if (r = dquote ∨ r = squote) ∧ st.inQuote = false then
    { st with inQuote := true, quoteChar := r }
  else if r = st.quoteChar ∧ st.inQuote = true then
    { st with inQuote := false, quoteChar := nulChar }
  else if r = ' ' ∧ st.inQuote = false then
    if st.current ≠ [] then
      { st with args := st.args ++ [st.current], current := [] }
    else st
  else
    { st with current := st.current ++ [r] }

/-- `parseCommandArgs(cmd)`: run the scan and flush a non-empty trailing
buffer. -/

def parseCommandArgs (cmd : List Char) : List (List Char) :=
  let st := cmd.foldl scanStep scanInit
  if st.current ≠ [] then st.args ++ [st.current] else st.args

/-- Go `strings.Join(argv, " ")`. -/

def joinArgs : List (List Char) → List Char
  | [] => []
  | [t] => t
  | t :: ts => t ++ ' ' :: joinArgs ts

/-- `getFileType(ext)`: deterministic table on the lowercased extension. -/

def getFileType (ext0 : List Char) : List Char :=
  let ext := goToLower ext0
  if ext = "jpg".toList ∨ ext = "jpeg".toList ∨ ext = "png".toList ∨
     ext = "gif".toList ∨ ext = "webp".toList ∨ ext = "bmp".toList ∨
     ext = "tiff".toList then "image".toList
  else if ext = "mp4".toList ∨ ext = "mov".toList ∨ ext = "avi".toList ∨
     ext = "mkv".toList ∨ ext = "webm".toList ∨ ext = "flv".toList ∨
     ext = "wmv".toList then "video".toList
  else if ext = "mp3".toList ∨ ext = "wav".toList ∨ ext = "aac".toList ∨
     ext = "flac".toList ∨ ext = "ogg".toList ∨ ext = "m4a".toList then
    "audio".toList
  else if ext = "srt".toList ∨ ext = "vtt".toList ∨ ext = "ass".toList ∨
     ext = "ssa".toList then "subtitle".toList
  else "file".toList

/-- The download extension for an input URL (`handleFFmpegCommand`,
download loop): `filepath.Ext(url)` with fallback `.mp4` when empty or
longer than 5 runes. -/

def downloadExt (url : List Char) : List Char :=
  let ext := goExt url
  if ext = [] ∨ 5 < ext.length then ".mp4".toList else ext

/-- Local path an input `(key, url)` is downloaded to:
`filepath.Join(jobDir, key+ext)`. -/

def inputDownloadPath (jobDir key url : List Char) : List Char :=
  goJoin jobDir (key ++ downloadExt url)

/-- `system.CheckResourcesAvailable`: `(ok, reason)`.  The memory-usage
percent of `GetResourceStatus` and the `strconv.FormatFloat(_, 'f', 1, 64)`
rendering are parameters (`memPercent`, `fmtFloat1`). -/

def checkResourcesAvailable (memPercent : ℚ) (fmtFloat1 : ℚ → List Char)
    (maxMemoryPercent : ℚ) : Bool × List Char :=
  if maxMemoryPercent < memPercent then
    (false, "memory usage too high: ".toList ++ fmtFloat1 memPercent ++
      "%".toList)
  else (true, [])

/-- The asynq `IsFailure` classifier installed by the worker: an error is
a non-failure exactly when its message contains `"resource limit"`. -/

def isFailure (errMsg : List Char) : Bool :=
  if goContains errMsg "resource limit".toList then false else true

/-- The admission-rejection error message
(`fmt.Errorf("resource limit: %s", reason)`). -/

def resourceLimitMsg (reason : List Char) : List Char :=
  "resource limit: ".toList ++ reason

/-- The fatal execution error message
(`fmt.Errorf("ffmpeg failed (command %d): %w\n%s", i+1, err, output)`),
where `output` is the tool's combined/captured stderr output. -/

def ffmpegFailedMsg (iPlus1 : Nat) (errText output : List Char) :
    List Char :=
  "ffmpeg failed (command ".toList ++ natDigits iPlus1 ++ "): ".toList ++
    errText ++ '\n' :: output

/-- The `FFmpegProgress` record.  `fps`, `bitrate` and `speed` keep the
raw rune value (their parses are irrelevant to the claims and `bitrate`
and `speed` are stored verbatim by the Go code; `fps` is stored as the
raw value here in place of its float64 parse).  `outTime` is the
`time.Duration` (nanoseconds) derived from `outTimeUS`. -/

structure FFmpegProgress where
  frame : Int := 0
  fpsRaw : List Char := []
  bitrate : List Char := []
  totalSize : Int := 0
  outTimeUS : Int := 0
  outTimeNS : Int := 0
  dupFrames : Int := 0
  dropFrames : Int := 0
  speed : List Char := []
  progress : List Char := []
  percentDone : ℚ := 0
deriving Repr, DecidableEq

/-- `strings.SplitN(line, "=", 2)` projected to the two-part case: the
text before the first `=` and the text after it; `none` when the line has
no `=` (the parser skips such lines). -/

def splitEq2 (line : List Char) : Option (List Char × List Char) :=
  match line.splitOn '=' with
  | [] => none
  | [_] => none
  | k :: rest => some (k, (rest.intersperse ['=']).flatten)

/-- One line of `parseProgress`: update the running record and emit the
callback argument when the line's key is `progress`. -/

def progressStep (durationMS : Int) (st : FFmpegProgress)
    (line : List Char) : FFmpegProgress × Option FFmpegProgress :=
  match splitEq2 line with
  | none => (st, none)
  | some (k, v) =>
    let key := goTrimSpace k
    let value := goTrimSpace v
    if key = "frame".toList then ({ st with frame := parseIntGo value }, none)
    else if key = "fps".toList then ({ st with fpsRaw := value }, none)
    else if key = "bitrate".toList then ({ st with bitrate := value }, none)
    else if key = "total_size".toList then
      ({ st with totalSize := parseIntGo value }, none)
    else if key = "out_time_us".toList then
      let us := parseIntGo value
      ({ st with outTimeUS := us, outTimeNS := us * 1000 }, none)
    else if key = "dup_frames".toList then
      ({ st with dupFrames := parseIntGo value }, none)
    else if key = "drop_frames".toList then
      ({ st with dropFrames := parseIntGo value }, none)
    else if key = "speed".toList then ({ st with speed := value }, none)
    else if key = "progress".toList then
      let pct :=
        if 0 < durationMS ∧ 0 < st.outTimeUS then
          let p := qmul (qdiv ((st.outTimeUS / 1000 : Int) : ℚ)
            ((durationMS : Int) : ℚ)) 100
          if 100 < p then 100 else p
        else st.percentDone
      let st2 := { st with progress := value, percentDone := pct }
      (if value = "end".toList then { st2 with percentDone := 100 } else st2,
        some st2)
    else (st, none)

/-- The scanner loop of `parseProgress` from a running record `st`: the
sequence of records passed to the `OnProgress` callback, in order. -/

def parseProgressFrom (durationMS : Int) (st : FFmpegProgress) :
    List (List Char) → List FFmpegProgress
  | [] => []
  | line :: rest =>
    match progressStep durationMS st line with
    | (st2, some e) => e :: parseProgressFrom durationMS st2 rest
    | (st2, none) => parseProgressFrom durationMS st2 rest

/-- `parseProgress` over a list of scanner lines (the record starts
zero-valued). -/

def parseProgress (durationMS : Int) (lines : List (List Char)) :
    List FFmpegProgress :=
  parseProgressFrom durationMS { } lines

/-- The `(key, value)` of a progress line after `SplitN`/`TrimSpace`,
`none` for a line without `=`. -/

def lineKeyVal (line : List Char) : Option (List Char × List Char) :=
  (splitEq2 line).map fun kv => (goTrimSpace kv.1, goTrimSpace kv.2)

/-- Whether a line reports the `progress` key (such a line triggers the
callback). -/

def isProgressLine (line : List Char) : Bool :=
  match lineKeyVal line with
  | some kv => if kv.1 = "progress".toList then true else false
  | none => false

/-- Whether a line is `progress=end`. -/

def isEndProgressLine (line : List Char) : Bool :=
  match lineKeyVal line with
  | some kv =>
    if kv.1 = "progress".toList ∧ kv.2 = "end".toList then true else false
  | none => false

/-- One line of well-formed tool output, part 1: a `progress` line
carries `continue` or `end`. -/

def progressLineOK (line : List Char) : Bool :=
  match lineKeyVal line with
  | some kv =>
    if kv.1 = "progress".toList then
      if kv.2 = "continue".toList ∨ kv.2 = "end".toList then true
      else false
    else true
  | none => true

/-- Well-formed tool output, part 1: every `progress` line carries
`continue` or `end`. -/

def progressValuesOK (lines : List (List Char)) : Bool :=
  lines.all progressLineOK

/-- One line of well-formed tool output, part 2: an `out_time_us` line
parses to a positive value. -/

def outLineOK (line : List Char) : Bool :=
  match lineKeyVal line with
  | some kv =>
    if kv.1 = "out_time_us".toList then
      if 0 < parseIntGo kv.2 then true else false
    else true
  | none => true

/-- Well-formed tool output, part 2: every `out_time_us` line parses to a
positive value. -/

def outValuesPositive (lines : List (List Char)) : Bool :=
  lines.all outLineOK

/-- No line of the list triggers the callback. -/

def noProgressLines (lines : List (List Char)) : Bool :=
  lines.all fun line => ! isProgressLine line

/-- Well-formed tool output, part 3: `progress=end` closes the stream —
no further progress line follows one. -/

def endIsLastProgress : List (List Char) → Bool
  | [] => true
  | line :: rest =>
    if isEndProgressLine line then noProgressLines rest
    else endIsLastProgress rest

/-- The claimed progress percentage
`min(100, (out_time_us/1000)/duration_ms*100)` (with the code's integer
division by 1000). -/

def percentFormula (durationMS outUS : Int) : ℚ :=
  min 100 (qmul (qdiv ((outUS / 1000 : Int) : ℚ) ((durationMS : Int) : ℚ))
    100)

/-- Decoded `CommandRequest` payload (maps as association lists in one
fixed iteration order). -/

structure WCommandRequest where
  inputFiles : List (List Char × List Char)
  outputFiles : List (List Char × List Char)
  ffmpegCommand : List Char
  ffmpegCommands : List (List Char)
  webhook : List Char
  referenceID : List Char
deriving Repr, DecidableEq

/-- Per-output metadata recorded in the result
(width/height stay `0` when not probed; JSON omits zero values). -/

structure WOutputFileInfo where
  fileID : List Char
  sizeMBytes : ℚ
  fileType : List Char
  fileFormat : List Char
  storageURL : List Char
  width : Int
  height : Int
deriving Repr, DecidableEq

/-- The `CommandResult` fields the claims mention (wall-clock fields are
real time, outside the embedding). -/

structure WCommandResult where
  outputFiles : List (List Char × WOutputFileInfo)
  hardwareAcceleration : List Char
deriving Repr, DecidableEq

/-- External effects of one handler run, in program order. -/

inductive Event
  | download (key url dest : List Char)
  | runFFmpeg (args : List (List Char))
  | uploadOut (key localPath destPath : List Char)
  | enqueueNotification (url : List Char)
  | writeResult
deriving Repr, DecidableEq

/-- I/O oracles the handler consults.  `exec` yields `()` on exit status
zero and otherwise the Go error text plus the captured output bytes. -/

structure WorkerEnv where
  memPercent : ℚ
  fmtFloat1 : ℚ → List Char
  download : List Char → List Char → Except (List Char) Unit
  probeDurationMS : List Char → Option Int
  exec : List (List Char) → Except (List Char × List Char) Unit
  statSize : List Char → Except (List Char) Int
  upload : List Char → List Char → Except (List Char) (List Char)
  probeDims : List Char → Int × Int
  hwAccelType : List Char

/-- The worker configuration fields the handler reads. -/

structure WorkerCfg where
  resourcesEnabled : Bool
  maxMemoryPercent : ℚ
  workDir : List Char

/-- Sequential download loop: events performed, and the `inputPaths` map
on success or the `download <key>: ...` error. -/

def downloadInputs (env : WorkerEnv) (jobDir : List Char) :
    List (List Char × List Char) →
    Except (List Event × List Char) (List Event × List (List Char × List Char))
  | [] => .ok ([], [])
  | (key, url) :: rest =>
    let dest := inputDownloadPath jobDir key url
    match env.download url dest with
    | .error e =>
      .error ([.download key url dest],
        "download ".toList ++ key ++ ": ".toList ++ e)
    | .ok _ =>
      match downloadInputs env jobDir rest with
      | .error (evs, msg) => .error (.download key url dest :: evs, msg)
      | .ok (evs, paths) =>
        .ok (.download key url dest :: evs, (key, dest) :: paths)

/-- Duration probe: the first input path whose probe succeeds with a
positive duration, else `0` (progress reporting suppressed). -/

def firstDurationMS (env : WorkerEnv) :
    List (List Char × List Char) → Int
  | [] => 0
  | (_, p) :: rest =>
    match env.probeDurationMS p with
    | some d => if 0 < d then d else firstDurationMS env rest
    | none => firstDurationMS env rest

/-- The argv for one command string: expansion, tokenization, `-y`; when
a duration is known `FFmpegRunner.Run` prepends `-y -progress pipe:1` on
top (the Go code hands it the already-`-y`-prefixed argv). -/

def commandArgv (inputs outputs : List (List Char × List Char))
    (durationMS : Int) (cmd : List Char) : List (List Char) :=
  let args := "-y".toList :: parseCommandArgs
    (expandPlaceholders cmd inputs outputs)
  if 0 < durationMS then
    "-y".toList :: "-progress".toList :: "pipe:1".toList :: args
  else args

/-- Sequential execution loop over the resolved command strings
(`iPlus1` is the 1-based attempt index of the next command). -/

def execCommands (env : WorkerEnv)
    (inputs outputs : List (List Char × List Char)) (durationMS : Int)
    (iPlus1 : Nat) :
    List (List Char) → Except (List Event × List Char) (List Event)
  | [] => .ok []
  | cmd :: rest =>
    let args := commandArgv inputs outputs durationMS cmd
    match env.exec args with
    | .error (eTxt, output) =>
      .error ([.runFFmpeg args], ffmpegFailedMsg iPlus1 eTxt output)
    | .ok _ =>
      match execCommands env inputs outputs durationMS (iPlus1 + 1) rest with
      | .error (evs, msg) => .error (.runFFmpeg args :: evs, msg)
      | .ok evs => .ok (.runFFmpeg args :: evs)

/-- Output collection loop: stat, upload, and the recorded
`OutputFileInfo` per `(key, localPath)` of the output-path map. -/

def collectOutputs (env : WorkerEnv) (commandID : List Char)
    (reqOutputFiles : List (List Char × List Char)) :
    List (List Char × List Char) →
    Except (List Event × List Char)
      (List Event × List (List Char × WOutputFileInfo))
  | [] => .ok ([], [])
  | (key, localPath) :: rest =>
    match env.statSize localPath with
    | .error e =>
      .error ([], "output ".toList ++ key ++ " not created: ".toList ++ e)
    | .ok size =>
      let filename := (lookupA reqOutputFiles key).getD []
      let destPath := commandID ++ '_' :: filename
      match env.upload localPath destPath with
      | .error e =>
        .error ([.uploadOut key localPath destPath],
          "upload output ".toList ++ key ++ ": ".toList ++ e)
      | .ok storageURL =>
        let ext := goTrimPrefix (goExt filename) ".".toList
        let fileType := getFileType ext
        let dims :=
          if fileType = "video".toList ∨ fileType = "image".toList then
            env.probeDims localPath
          else (0, 0)
        let info : WOutputFileInfo :=
          { fileID := commandID ++ '_' :: key
            sizeMBytes := qdiv (size : ℚ) (qmul 1024 1024)
            fileType := fileType
            fileFormat := ext
            storageURL := storageURL
            width := dims.1
            height := dims.2 }
        match collectOutputs env commandID reqOutputFiles rest with
        | .error (evs, msg) =>
          .error (.uploadOut key localPath destPath :: evs, msg)
        | .ok (evs, infos) =>
          .ok (.uploadOut key localPath destPath :: evs, (key, info) :: infos)

/-- `handleFFmpegCommand`: admission gate, downloads, command execution,
output collection, optional notification enqueue, result write. -/

def handleFFmpegCommand (cfg : WorkerCfg) (env : WorkerEnv)
    (req : WCommandRequest) (commandID : List Char) :
    List Event × Except (List Char) WCommandResult :=
  if cfg.resourcesEnabled = true ∧
      (checkResourcesAvailable env.memPercent env.fmtFloat1
        cfg.maxMemoryPercent).1 = false then
    ([], .error (resourceLimitMsg
      (checkResourcesAvailable env.memPercent env.fmtFloat1
        cfg.maxMemoryPercent).2))
  else
    match downloadInputs env (goJoin cfg.workDir commandID)
        req.inputFiles with
    | .error (evs, msg) => (evs, .error msg)
    | .ok (dlEvs, inputPaths) =>
      match execCommands env inputPaths
          (req.outputFiles.map fun kv =>
            (kv.1, goJoin (goJoin cfg.workDir commandID) kv.2))
          (firstDurationMS env inputPaths) 1
          (if req.ffmpegCommands ≠ [] then req.ffmpegCommands
           else if req.ffmpegCommand ≠ [] then [req.ffmpegCommand]
           else []) with
      | .error (evs, msg) => (dlEvs ++ evs, .error msg)
      | .ok runEvs =>
        match collectOutputs env commandID req.outputFiles
            (req.outputFiles.map fun kv =>
              (kv.1, goJoin (goJoin cfg.workDir commandID) kv.2)) with
        | .error (evs, msg) => (dlEvs ++ runEvs ++ evs, .error msg)
        | .ok (upEvs, outputFiles) =>
          (dlEvs ++ runEvs ++ upEvs ++
            ((if req.webhook ≠ [] then
                [Event.enqueueNotification req.webhook]
              else []) ++ [Event.writeResult]),
            .ok { outputFiles := outputFiles
                  hardwareAcceleration := env.hwAccelType })

/-- The ogen-decoded `POST /v1/commands` body: optional fields carry a
`Set` flag (a field can be set to an empty value). -/

structure ApiCommandRequest where
  inputFilesSet : Bool
  inputFiles : List (List Char × List Char)
  outputFiles : List (List Char × List Char)
  ffmpegCommandSet : Bool
  ffmpegCommand : List Char
  ffmpegCommands : List (List Char)
  webhookSet : Bool
  webhook : List Char
  referenceIDSet : Bool
  referenceID : List Char
deriving Repr, DecidableEq

/-- `CreateCommand` responses. -/

inductive CreateCommandRes
  | badRequest (errMsg : List Char)
  | internalServerError (errMsg : List Char)
  | created (commandID : List Char) (referenceID : Option (List Char))
deriving Repr, DecidableEq

/-- Whether a response is the 400 branch. -/

def CreateCommandRes.isBadRequest : CreateCommandRes → Bool
  | .badRequest _ => true
  | _ => false

/-- `CreateCommand`: validation, then enqueue (`enqueue` is the broker
oracle: the assigned task id, or the enqueue error).  The second
component records whether `Enqueue` was called. -/

def createCommand (req : ApiCommandRequest)
    (enqueue : Except (List Char) (List Char)) : CreateCommandRes × Bool :=
  if req.ffmpegCommandSet = false ∧ req.ffmpegCommands = [] then
    (.badRequest "ffmpeg_command or ffmpeg_commands required".toList, false)
  else if req.outputFiles = [] then
    (.badRequest "output_files required".toList, false)
  else
    match enqueue with
    | .error e => (.internalServerError e, true)
    | .ok id =>
      (.created id (if req.referenceIDSet then some req.referenceID else none),
        true)

/-- asynq task states observed by the intake. -/

inductive TaskState
  | active | pending | scheduled | retry | archived | completed
deriving Repr, DecidableEq

/-- API status values. -/

inductive CommandStatus
  | PROCESSING | PENDING | SUCCESS | FAILED | RETRYING
deriving Repr, DecidableEq

/-- `stateToStatus`. -/

def stateToStatus : TaskState → CommandStatus
  | .active => .PROCESSING
  | .pending => .PENDING
  | .completed => .SUCCESS
  | .archived => .FAILED
  | .retry => .RETRYING
  | _ => .PENDING

/-- The broker task record fields `taskToStatus` reads.  `result` is the
decoded result blob (`none` for an absent or undecodable blob). -/

structure TaskInfoModel where
  id : List Char
  payload : WCommandRequest
  result : Option WCommandResult
  lastErr : List Char
deriving Repr, DecidableEq

/-- The projected status record (`created_at`/`completed_at` are real
timestamps, outside the embedding). -/

structure CommandStatusModel where
  commandID : List Char
  status : CommandStatus
  originalRequest : WCommandRequest
  outputFiles : Option (List (List Char × WOutputFileInfo))
  error : Option (List Char)
deriving Repr, DecidableEq

/-- `taskToStatus(t, status)`: project the task; populate result fields when
the result blob decodes; override the status to FAILED when the task
carries a non-empty last-error string. -/

def taskToStatus (t : TaskInfoModel) (status : CommandStatus) :
    CommandStatusModel :=
  let base : CommandStatusModel :=
    { commandID := t.id
      status := status
      originalRequest := t.payload
      outputFiles := none
      error := none }
  let withRes :=
    match t.result with
    | some r => { base with outputFiles := some r.outputFiles }
    | none => base
  if t.lastErr ≠ [] then
    { withRes with error := some t.lastErr, status := .FAILED }
  else withRes

/-- `GET /v1/commands/{id}`: status from the broker state, then
projection. -/

def getCommandStatus (t : TaskInfoModel) (state : TaskState) :
    CommandStatusModel :=
  taskToStatus t (stateToStatus state)

/-- One entry of `GET /v1/commands` for a task of the completed page
(`ListCompletedTasks` entries are projected with status SUCCESS). -/

def listCompletedEntry (t : TaskInfoModel) : CommandStatusModel :=
  taskToStatus t .SUCCESS

/-- Decidable equality of `Except` values (for evaluating handler
outcomes on concrete fixtures). -/

instance exceptDecEq {ε α : Type} [DecidableEq ε] [DecidableEq α] :
    DecidableEq (Except ε α) := fun x y =>
  match x, y with
  | .ok a, .ok b =>
    if h : a = b then isTrue (by rw [h])
    else isFalse fun hc => h (by injection hc)
  | .error a, .error b =>
    if h : a = b then isTrue (by rw [h])
    else isFalse fun hc => h (by injection hc)
  | .ok _, .error _ => isFalse fun hc => Except.noConfusion hc
  | .error _, .ok _ => isFalse fun hc => Except.noConfusion hc

/-- The command string `{{a{{axb}}b}}` of the C7 counterexample. -/

def c7cmd : List Char :=
  [lbrace, lbrace, 'a', lbrace, lbrace, 'a', 'x', 'b',
   rbrace, rbrace, 'b', rbrace, rbrace]

/-- The C7 counterexample map: the single input `axb ↦ x`. -/

def c7map : List (List Char × List Char) := [("axb".toList, "x".toList)]

/-- The quoted-region example command `a "b c" d`. -/

def c8quoted : List Char :=
  ['a', ' ', dquote, 'b', ' ', 'c', dquote, ' ', 'd']

/-- The C2 counterexample request: both `ffmpeg_command` and
`ffmpeg_commands` supplied non-empty, with a non-empty output map. -/

def c2req : ApiCommandRequest :=
  { inputFilesSet := false, inputFiles := []
    outputFiles := [("out_1".toList, "a.jpg".toList)]
    ffmpegCommandSet := true, ffmpegCommand := "-i x a.jpg".toList
    ffmpegCommands := ["-i x b.gif".toList]
    webhookSet := false, webhook := []
    referenceIDSet := false, referenceID := [] }

/-- An all-success oracle environment: downloads, execution, stat
(1 MiB files), upload (URL `http://files/<dest>`) all succeed; no
duration probe; no dimensions. -/

def envOK : WorkerEnv :=
  { memPercent := 10
    fmtFloat1 := fun _ => []
    download := fun _ _ => .ok ()
    probeDurationMS := fun _ => none
    exec := fun _ => .ok ()
    statSize := fun _ => .ok 1048576
    upload := fun _ dest => .ok ("http://files/".toList ++ dest)
    probeDims := fun _ => (0, 0)
    hwAccelType := "none".toList }

/-- Worker configuration with resource monitoring disabled. -/

def cfg0 : WorkerCfg :=
  { resourcesEnabled := false, maxMemoryPercent := 85
    workDir := "/tmp/ffmpeg-jobs".toList }

/-- Worker configuration with resource monitoring enabled at the default
threshold. -/

def cfgHot : WorkerCfg :=
  { resourcesEnabled := true, maxMemoryPercent := 85
    workDir := "/tmp/ffmpeg-jobs".toList }

/-- `envOK` under memory pressure (97 %), with a concrete
one-decimal float rendering for that value. -/

def envHot : WorkerEnv :=
  { envOK with memPercent := 97, fmtFloat1 := fun _ => "97.0".toList }

/-- A single-input, single-output request with a webhook. -/

def reqC1 : WCommandRequest :=
  { inputFiles := [("in_1".toList, "http://srv/v.mp4".toList)]
    outputFiles := [("out_1".toList, "t.jpg".toList)]
    ffmpegCommand := "-i x t.jpg".toList
    ffmpegCommands := []
    webhook := "http://cb.example/hook".toList
    referenceID := [] }

/-- A request whose destination file name has an upper-case extension. -/

def reqC4 : WCommandRequest :=
  { inputFiles := []
    outputFiles := [("out_1".toList, "T.JPG".toList)]
    ffmpegCommand := "-i x T.JPG".toList
    ffmpegCommands := []
    webhook := []
    referenceID := [] }

/-- A request whose input URL has no path extension but a dotted query
string. -/

def reqC5 : WCommandRequest :=
  { inputFiles := [("in_1".toList, "http://x/video?fmt=a.png".toList)]
    outputFiles := [("out_1".toList, "t.jpg".toList)]
    ffmpegCommand := "-i x t.jpg".toList
    ffmpegCommands := []
    webhook := []
    referenceID := [] }

/-- Whether an event is the result write. -/

def Event.isWrite : Event → Bool
  | .writeResult => true
  | _ => false

/-- Whether an event is the notification enqueue. -/

def Event.isEnqueueNotif : Event → Bool
  | .enqueueNotification _ => true
  | _ => false

/-- The claimed intra-task order: the result write occurs strictly
before the notification enqueue in the trace. -/

def resultWritePrecedesEnqueue (tr : List Event) : Bool :=
  Nat.blt (tr.findIdx Event.isWrite) (tr.findIdx Event.isEnqueueNotif)

/-- Whether a handler outcome is success. -/

def exceptIsOk {ε α : Type} : Except ε α → Bool
  | .ok _ => true
  | .error _ => false

/-- The `file_format` recorded for `out_1` on a completed run (`none`
when the handler failed or recorded no such key). -/

def recordedFileFormat (out : List Event × Except (List Char) WCommandResult)
    (key : List Char) : Option (List Char) :=
  match out.2 with
  | .ok r => (lookupA r.outputFiles key).map WOutputFileInfo.fileFormat
  | .error _ => none

/-- The `out_1` entry recorded by the C4 fixture run. -/

def infoC4 : WOutputFileInfo :=
  { fileID := "id1_out_1".toList
    sizeMBytes := 1
    fileType := "image".toList
    fileFormat := "JPG".toList
    storageURL := "http://files/id1_T.JPG".toList
    width := 0
    height := 0 }

/-- The concrete Result of the C4 fixture run. -/

def resC4 : WCommandResult :=
  { outputFiles := [("out_1".toList, infoC4)]
    hardwareAcceleration := "none".toList }

/-- A five-line progress stream (3-second input). -/

def c6lines : List (List Char) :=
  ["frame=10".toList, "out_time_us=1500000".toList,
   "progress=continue".toList, "out_time_us=3000001".toList,
   "progress=end".toList]

/-!
Supporting lemmas and the claim theorems.
-/

/-- The fuel is irrelevant once it covers the input length. -/
theorem replaceAllF_congr : ∀ f1 f2 (s old new : List Char),
    s.length ≤ f1 → s.length ≤ f2 →
    replaceAllF f1 s old new = replaceAllF f2 s old new := by
  intro f1
  induction f1 with
  | zero =>
    intro f2 s old new h1 _
    have : s = [] := List.length_eq_zero.mp (Nat.le_zero.mp h1)
    subst this
    cases f2 <;> rfl
  | succ f ih =>
    intro f2 s old new h1 h2
    cases f2 with
    | zero =>
      have : s = [] := List.length_eq_zero.mp (Nat.le_zero.mp h2)
      subst this; rfl
    | succ g =>
      cases s with
      | nil => rfl
      | cons c rest =>
        simp only [replaceAllF]
        by_cases hc : old ≠ [] ∧ old.isPrefixOf (c :: rest)
        · rw [if_pos hc, if_pos hc]
          have hlen : ((c :: rest).drop old.length).length ≤ f ∧
              ((c :: rest).drop old.length).length ≤ g := by
            have hp : 0 < old.length := List.length_pos.mpr hc.1
            simp only [List.length_drop, List.length_cons] at h1 h2 ⊢
            omega
          rw [ih g _ old new hlen.1 hlen.2]
        · rw [if_neg hc, if_neg hc]
          have hl : rest.length ≤ f ∧ rest.length ≤ g := by
            simp only [List.length_cons] at h1 h2; omega
          rw [ih g rest old new hl.1 hl.2]

/-- Unfolding rule of `replaceAll` on a cons cell. -/
theorem replaceAll_cons (c : Char) (rest old new : List Char) :
    replaceAll (c :: rest) old new =
      if old ≠ [] ∧ old.isPrefixOf (c :: rest) then
        new ++ replaceAll ((c :: rest).drop old.length) old new
      else
        c :: replaceAll rest old new := by
  unfold replaceAll
  simp only [List.length_cons, replaceAllF]
  by_cases hc : old ≠ [] ∧ old.isPrefixOf (c :: rest)
  · rw [if_pos hc, if_pos hc]
    have hp : 0 < old.length := List.length_pos.mpr hc.1
    rw [replaceAllF_congr _ _ _ _ _ (by simp [List.length_drop]; omega)
      (le_refl _)]
  · rw [if_neg hc, if_neg hc]

/-- A pattern that is a prefix of `s` occurs in `s`. -/
theorem goContains_of_isPrefixOf {s pat : List Char}
    (h : pat.isPrefixOf s = true) : goContains s pat = true := by
  cases s with
  | nil =>
    have hpre := List.isPrefixOf_iff_prefix.mp h
    have hp : pat = [] := List.length_eq_zero.mp
      (Nat.le_zero.mp (by simpa using hpre.length_le))
    simp [goContains, hp]
  | cons c rest => simp [goContains, h]

/-- Occurrence is preserved by prepending. -/
theorem goContains_append_left (a : List Char) {b pat : List Char}
    (h : goContains b pat = true) : goContains (a ++ b) pat = true := by
  induction a with
  | nil => simpa using h
  | cons c rest ih => simp [goContains, ih]

/-- `ReplaceAll` is the identity when the pattern does not occur. -/
theorem replaceAll_of_not_contains {s old new : List Char}
    (h : goContains s old = false) : replaceAll s old new = s := by
  induction s with
  | nil => simp [replaceAll, replaceAllF]
  | cons c rest ih =>
    rw [goContains] at h
    simp only [Bool.or_eq_false_iff] at h
    rw [replaceAll_cons, if_neg (by simp [h.1]), ih h.2]

/-- A left fold of `ReplaceAll`s over patterns that do not occur in `t`
leaves `t` unchanged. -/
theorem foldl_replaceAll_id (t : List Char)
    (m : List (List Char × List Char))
    (h : ∀ kv ∈ m, goContains t (placeholderOf kv.1) = false) :
    m.foldl (fun acc kv => replaceAll acc (placeholderOf kv.1) kv.2) t
      = t := by
  induction m with
  | nil => simp
  | cons kv rest ih =>
    simp only [List.foldl_cons,
      replaceAll_of_not_contains (h kv (by simp))]
    exact ih fun kv2 h2 => h kv2 (by simp [h2])

/-- C7 counterexample: for the map `{axb ↦ x}` — whose only value `x`
contains no brace at all, hence no `{{…}}` substring — and the command
`{{a{{axb}}b}}`, one expansion yields `{{axb}}` and a second expansion
yields `x`, so `expand (expand s m) m ≠ expand s m`. -/
theorem c7_idempotence_cex :
    goContains "x".toList [lbrace] = false ∧
    goContains "x".toList [rbrace] = false ∧
    expandPlaceholders c7cmd c7map [] = placeholderOf "axb".toList ∧
    expandPlaceholders (expandPlaceholders c7cmd c7map []) c7map [] ≠
      expandPlaceholders c7cmd c7map [] := by decide

/-- C7 (amended): placeholder expansion is idempotent whenever the
once-expanded string contains no placeholder `{{k}}` of any key `k` of
the two maps — in particular no replacement has re-created a
placeholder. -/
theorem c7_idempotence_amended (s : List Char)
    (inputs outputs : List (List Char × List Char))
    (h : ∀ kv ∈ inputs ++ outputs,
      goContains (expandPlaceholders s inputs outputs)
        (placeholderOf kv.1) = false) :
    expandPlaceholders (expandPlaceholders s inputs outputs)
      inputs outputs = expandPlaceholders s inputs outputs := by
  unfold expandPlaceholders at h ⊢
  exact foldl_replaceAll_id _ _ h

/-- Witness for `c7_idempotence_amended` at the command `{{k}} y` and map
`{k ↦ v}`: the expansion `v y` contains no placeholder, and a second
expansion leaves it unchanged. -/
theorem c7_idempotence_amended_witness :
    (∀ kv ∈ ([("k".toList, "v".toList)] ++
        ([] : List (List Char × List Char))),
      goContains
        (expandPlaceholders (placeholderOf "k".toList ++ " y".toList)
          [("k".toList, "v".toList)] [])
        (placeholderOf kv.1) = false) ∧
    expandPlaceholders
      (expandPlaceholders (placeholderOf "k".toList ++ " y".toList)
        [("k".toList, "v".toList)] [])
      [("k".toList, "v".toList)] [] =
    expandPlaceholders (placeholderOf "k".toList ++ " y".toList)
      [("k".toList, "v".toList)] [] :=
  ⟨by decide, c7_idempotence_amended _ _ _ (by decide)⟩

/-- Scanning a token containing no space and no quote runes from an
unquoted state appends it to the current buffer. -/
theorem scan_safe_token : ∀ (t : List Char) (args : List (List Char))
    (cur : List Char) (q : Char),
    (∀ c ∈ t, c ≠ ' ' ∧ c ≠ dquote ∧ c ≠ squote) →
    t.foldl scanStep ⟨args, cur, false, q⟩ = ⟨args, cur ++ t, false, q⟩ := by
  intro t
  induction t with
  | nil => intro args cur q _; simp
  | cons c rest ih =>
    intro args cur q hsafe
    have hc := hsafe c (by simp)
    have hstep : scanStep ⟨args, cur, false, q⟩ c =
        ⟨args, cur ++ [c], false, q⟩ := by
      unfold scanStep
      rw [if_neg (by simp [hc.2.1, hc.2.2]), if_neg (by simp),
        if_neg (by simp [hc.1])]
    rw [List.foldl_cons, hstep,
      ih args (cur ++ [c]) q (fun c2 h2 => hsafe c2 (by simp [h2]))]
    simp

/-- Round-trip helper: scanning `join(argv, " ")` from an unquoted state
with an empty buffer recovers `argv` appended to the accumulated args. -/
theorem scan_join_args : ∀ (argv : List (List Char))
    (args : List (List Char)) (q : Char),
    (∀ t ∈ argv, t ≠ [] ∧ ∀ c ∈ t, c ≠ ' ' ∧ c ≠ dquote ∧ c ≠ squote) →
    (let st := (joinArgs argv).foldl scanStep ⟨args, [], false, q⟩
     if st.current ≠ [] then st.args ++ [st.current] else st.args) =
      args ++ argv := by
  intro argv
  induction argv with
  | nil => intro args q _; simp [joinArgs]
  | cons t rest ih =>
    intro args q hsafe
    have ht := hsafe t (by simp)
    cases rest with
    | nil =>
      simp only [joinArgs]
      rw [scan_safe_token t args [] q ht.2]
      simp [ht.1]
    | cons t2 rest2 =>
      simp only [joinArgs, List.foldl_append]
      rw [scan_safe_token t args [] q ht.2]
      have hsp : scanStep ⟨args, [] ++ t, false, q⟩ ' ' =
          ⟨args ++ [t], [], false, q⟩ := by
        unfold scanStep
        rw [if_neg (by simp [dquote, squote]), if_neg (by simp),
          if_pos (by simp)]
        simp [ht.1]
      rw [List.foldl_cons, hsp]
      have := ih (args ++ [t]) q (fun t3 h3 => hsafe t3 (by simp [h3]))
      simp only at this ⊢
      rw [this, List.append_assoc]
      simp

/-- C8 counterexample: the argv `[""]` has only tokens without whitespace
or quote runes (vacuously), yet `tokenize(join([""], " "))` is `[]`, not
`[""]` — the round-trip law fails for empty tokens. -/
theorem c8_roundtrip_cex :
    joinArgs [([] : List Char)] = [] ∧
    (∀ c ∈ ([] : List Char), c ≠ ' ' ∧ c ≠ dquote ∧ c ≠ squote) ∧
    parseCommandArgs (joinArgs [([] : List Char)]) ≠
      [([] : List Char)] := by
  refine ⟨rfl, by simp, ?_⟩
  decide

/-- C8 (amended): the tokenizer round-trips on safe *non-empty* tokens —
for every argv whose tokens are non-empty and contain no space and no
quote runes, `tokenize(join(argv, " ")) == argv`; and a quoted region
groups spaces into one token: `tokenize(a "b c" d) = [a, b c, d]`. -/
theorem c8_roundtrip_amended :
    (∀ argv : List (List Char),
      (∀ t ∈ argv, t ≠ [] ∧ ∀ c ∈ t, c ≠ ' ' ∧ c ≠ dquote ∧ c ≠ squote) →
      parseCommandArgs (joinArgs argv) = argv) ∧
    parseCommandArgs c8quoted =
      ["a".toList, "b c".toList, "d".toList] := by
  constructor
  · intro argv hsafe
    have := scan_join_args argv [] nulChar hsafe
    simpa [parseCommandArgs, scanInit] using this
  · decide

/-- Witness for `c8_roundtrip_amended` at the argv `["-i", "in.mp4"]`. -/
theorem c8_roundtrip_amended_witness :
    (∀ t ∈ ["-i".toList, "in.mp4".toList],
      t ≠ [] ∧ ∀ c ∈ t, c ≠ ' ' ∧ c ≠ dquote ∧ c ≠ squote) ∧
    parseCommandArgs (joinArgs ["-i".toList, "in.mp4".toList]) =
      ["-i".toList, "in.mp4".toList] :=
  ⟨by decide, c8_roundtrip_amended.1 _ (by decide)⟩

/-- C10: the installed `IsFailure` classifier decides by substring match —
an error is a non-failure exactly when its message contains
`"resource limit"` anywhere, and in particular a fatal ffmpeg execution
error whose captured output embeds that substring is classified as a
non-failure. -/
theorem c10_isfailure_substring :
    (∀ msg : List Char,
      isFailure msg = false ↔
        goContains msg "resource limit".toList = true) ∧
    (∀ (iPlus1 : Nat) (errText output : List Char),
      goContains output "resource limit".toList = true →
      isFailure (ffmpegFailedMsg iPlus1 errText output) = false) := by
  constructor
  · intro msg
    unfold isFailure
    by_cases h : goContains msg "resource limit".toList = true
    · simp [h]
    · rw [if_neg (by simp [h]; simpa using h)]
      simpa using fun h2 => h h2
  · intro i e out h
    have hmem : goContains ('\n' :: out) "resource limit".toList = true := by
      rw [goContains, h]
      simp
    have hall : goContains
        ("ffmpeg failed (command ".toList ++ natDigits i ++ "): ".toList ++
          e ++ '\n' :: out) "resource limit".toList = true := by
      simp only [List.append_assoc]
      exact goContains_append_left _ (goContains_append_left _
        (goContains_append_left _ (goContains_append_left _ hmem)))
    unfold isFailure ffmpegFailedMsg
    rw [if_pos hall]

/-- Witness for `c10_isfailure_substring`: a fatal execution error whose
captured output mentions `resource limit` is classified non-failure. -/
theorem c10_isfailure_substring_witness :
    goContains "GPU resource limit exceeded".toList
      "resource limit".toList = true ∧
    isFailure (ffmpegFailedMsg 1 "exit status 1".toList
      "GPU resource limit exceeded".toList) = false :=
  ⟨by decide, c10_isfailure_substring.2 1 "exit status 1".toList
    "GPU resource limit exceeded".toList (by decide)⟩

/-- C9: `taskToStatus` reports FAILED whenever the broker record carries
a non-empty last-error string, overriding the state-derived status, while
the decoded result fields remain populated — through both the by-id
lookup (`GetCommand`) and the listing (`ListCommands` completed page). -/
theorem c9_lasterr_overrides_status (t : TaskInfoModel) (state : TaskState)
    (r : WCommandResult) (herr : t.lastErr ≠ []) (hres : t.result = some r) :
    (getCommandStatus t state).status = .FAILED ∧
    (getCommandStatus t state).error = some t.lastErr ∧
    (getCommandStatus t state).outputFiles = some r.outputFiles ∧
    (listCompletedEntry t).status = .FAILED ∧
    (listCompletedEntry t).outputFiles = some r.outputFiles := by
  unfold getCommandStatus listCompletedEntry taskToStatus
  rw [hres]
  simp [herr]

/-- Witness for `c9_lasterr_overrides_status`: a completed task with a
populated result blob and a residual last-error string from an earlier
failed attempt is reported FAILED with its result fields populated. -/
theorem c9_lasterr_overrides_status_witness :
    (let t : TaskInfoModel :=
      { id := "id9".toList
        payload :=
          { inputFiles := [], outputFiles := [("out_1".toList, "t.jpg".toList)]
            ffmpegCommand := "-i x t.jpg".toList, ffmpegCommands := []
            webhook := [], referenceID := [] }
        result := some { outputFiles := [], hardwareAcceleration := [] }
        lastErr := "download in_1: status 500".toList }
     (getCommandStatus t .completed).status = .FAILED ∧
     (getCommandStatus t .completed).outputFiles = some [] ∧
     (listCompletedEntry t).status = .FAILED) := by
  have h := c9_lasterr_overrides_status
    { id := "id9".toList
      payload :=
        { inputFiles := [], outputFiles := [("out_1".toList, "t.jpg".toList)]
          ffmpegCommand := "-i x t.jpg".toList, ffmpegCommands := []
          webhook := [], referenceID := [] }
      result := some { outputFiles := [], hardwareAcceleration := [] }
      lastErr := "download in_1: status 500".toList }
    .completed { outputFiles := [], hardwareAcceleration := [] }
    (by decide) rfl
  exact ⟨h.1, h.2.2.1, h.2.2.2.1⟩

/-- C2 counterexample: a request supplying *both* `ffmpeg_command` and
`ffmpeg_commands` non-empty is not rejected — `CreateCommand` enqueues it
and returns the created response, so the exactly-one rule is not
enforced. -/
theorem c2_validation_cex :
    (createCommand c2req (.ok "id2".toList)).1.isBadRequest = false ∧
    (createCommand c2req (.ok "id2".toList)).2 = true ∧
    (createCommand c2req (.ok "id2".toList)).1 =
      .created "id2".toList none := by decide

/-- C2 (amended): `CreateCommand` returns a 400 validation failure
without enqueueing exactly when no command is supplied (`ffmpeg_command`
absent and `ffmpeg_commands` empty) or `output_files` is empty; in every
other case — including both command fields supplied — the task is
enqueued. -/
theorem c2_validation_amended (req : ApiCommandRequest)
    (enq : Except (List Char) (List Char)) :
    ((createCommand req enq).1.isBadRequest = true ∧
      (createCommand req enq).2 = false) ↔
    ((req.ffmpegCommandSet = false ∧ req.ffmpegCommands = []) ∨
      req.outputFiles = []) := by
  unfold createCommand
  by_cases h1 : req.ffmpegCommandSet = false ∧ req.ffmpegCommands = []
  · simp [h1, CreateCommandRes.isBadRequest]
  · rw [if_neg h1]
    by_cases h2 : req.outputFiles = []
    · simp [h1, h2, CreateCommandRes.isBadRequest]
    · rw [if_neg h2]
      cases enq <;> simp [h1, h2, CreateCommandRes.isBadRequest]

/-- C3 counterexample: the classifier does not single out admission
rejections — a fatal ffmpeg execution error whose captured output happens
to contain `resource limit` is also classified as a non-failure, though
it is not an admission-rejection error (it does not start with
`resource limit: `). -/
theorem c3_admission_cex :
    isFailure (ffmpegFailedMsg 1 "exit status 1".toList
      "encoder: resource limit reached".toList) = false ∧
    goHasPrefix (ffmpegFailedMsg 1 "exit status 1".toList
      "encoder: resource limit reached".toList)
      "resource limit: ".toList = false := by decide

/-- C3 (amended): when resource monitoring is enabled and the reported
memory-usage percent exceeds `MAX_MEMORY_PERCENT`, the handler returns —
before any other processing (its effect trace is empty) — the error
`resource limit: <reason>`; and the classifier treats every error message
of that shape (indeed every message containing `resource limit`) as a
non-failure, so the retry counter is not decremented.  It does not
classify *only* such errors as non-failures. -/
theorem c3_admission_amended (cfg : WorkerCfg) (env : WorkerEnv)
    (req : WCommandRequest) (commandID : List Char)
    (hen : cfg.resourcesEnabled = true)
    (hmem : cfg.maxMemoryPercent < env.memPercent) :
    handleFFmpegCommand cfg env req commandID =
      ([], .error (resourceLimitMsg ("memory usage too high: ".toList ++
        env.fmtFloat1 env.memPercent ++ "%".toList))) ∧
    (∀ reason, isFailure (resourceLimitMsg reason) = false) := by
  constructor
  · unfold handleFFmpegCommand checkResourcesAvailable
    rw [if_pos hmem]
    rw [if_pos (by exact ⟨hen, rfl⟩)]
  · intro reason
    have hpre : ("resource limit".toList).isPrefixOf
        ("resource limit: ".toList ++ reason) = true := by
      apply List.isPrefixOf_iff_prefix.mpr
      exact List.IsPrefix.trans (by decide) (List.prefix_append _ reason)
    unfold isFailure resourceLimitMsg
    rw [if_pos (goContains_of_isPrefixOf hpre)]

/-- Witness for `c3_admission_amended` at 97 % memory usage against the
85 % limit. -/
theorem c3_admission_amended_witness :
    (cfgHot.resourcesEnabled = true ∧
      cfgHot.maxMemoryPercent < envHot.memPercent) ∧
    (handleFFmpegCommand cfgHot envHot reqC1 "id3".toList =
      ([], .error (resourceLimitMsg ("memory usage too high: ".toList ++
        envHot.fmtFloat1 envHot.memPercent ++ "%".toList))) ∧
     (∀ reason, isFailure (resourceLimitMsg reason) = false)) :=
  ⟨⟨by decide, by norm_num [cfgHot, envHot, envOK]⟩,
    c3_admission_amended cfgHot envHot reqC1 "id3".toList (by decide)
      (by norm_num [cfgHot, envHot, envOK])⟩

/-- C1 counterexample: on a successfully completing task with a webhook,
the trace contains both events but the result write does *not* precede
the notification enqueue — the handler enqueues the notification first
and writes the result afterwards. -/
theorem c1_order_cex :
    (handleFFmpegCommand cfg0 envOK reqC1 "id1".toList).1.any
      Event.isWrite = true ∧
    (handleFFmpegCommand cfg0 envOK reqC1 "id1".toList).1.any
      Event.isEnqueueNotif = true ∧
    exceptIsOk (handleFFmpegCommand cfg0 envOK reqC1 "id1".toList).2 =
      true ∧
    resultWritePrecedesEnqueue
      (handleFFmpegCommand cfg0 envOK reqC1 "id1".toList).1 = false := by
  decide

/-- C1 (amended): for every task the Processor completes successfully
with a webhook set, the notification enqueue *immediately precedes* the
result write — the trace ends with the enqueue followed by the result
write (the claimed edge holds with the opposite orientation). -/
theorem c1_order_amended (cfg : WorkerCfg) (env : WorkerEnv)
    (req : WCommandRequest) (commandID : List Char)
    (hok : exceptIsOk (handleFFmpegCommand cfg env req commandID).2 = true)
    (hw : req.webhook ≠ []) :
    ∃ pre, (handleFFmpegCommand cfg env req commandID).1 =
      pre ++ [Event.enqueueNotification req.webhook, Event.writeResult] := by
  unfold handleFFmpegCommand at hok ⊢
  by_cases hres : cfg.resourcesEnabled = true ∧
      (checkResourcesAvailable env.memPercent env.fmtFloat1
        cfg.maxMemoryPercent).1 = false
  · rw [if_pos hres] at hok
    simp [exceptIsOk] at hok
  · rw [if_neg hres] at hok ⊢
    cases hdl : downloadInputs env (goJoin cfg.workDir commandID)
        req.inputFiles with
    | error p =>
      obtain ⟨evs, msg⟩ := p
      rw [hdl] at hok
      simp [exceptIsOk] at hok
    | ok p =>
      obtain ⟨dlEvs, inputPaths⟩ := p
      rw [hdl] at hok
      dsimp only at hok ⊢
      cases hex : execCommands env inputPaths
          (req.outputFiles.map fun kv => (kv.1, goJoin
            (goJoin cfg.workDir commandID) kv.2))
          (firstDurationMS env inputPaths) 1
          (if req.ffmpegCommands ≠ [] then req.ffmpegCommands
           else if req.ffmpegCommand ≠ [] then [req.ffmpegCommand]
           else []) with
      | error p =>
        obtain ⟨evs, msg⟩ := p
        rw [hex] at hok
        simp [exceptIsOk] at hok
      | ok runEvs =>
        rw [hex] at hok
        dsimp only at hok ⊢
        cases hco : collectOutputs env commandID req.outputFiles
            (req.outputFiles.map fun kv => (kv.1, goJoin
              (goJoin cfg.workDir commandID) kv.2)) with
        | error p =>
          obtain ⟨evs, msg⟩ := p
          rw [hco] at hok
          simp [exceptIsOk] at hok
        | ok p =>
          obtain ⟨upEvs, outputFiles⟩ := p
          dsimp only
          rw [if_pos hw]
          exact ⟨dlEvs ++ runEvs ++ upEvs, by simp⟩

/-- Witness for `c1_order_amended` on the all-success environment. -/
theorem c1_order_amended_witness :
    (exceptIsOk (handleFFmpegCommand cfg0 envOK reqC1 "id1".toList).2 =
        true ∧
      reqC1.webhook ≠ []) ∧
    (∃ pre, (handleFFmpegCommand cfg0 envOK reqC1 "id1".toList).1 =
      pre ++ [Event.enqueueNotification reqC1.webhook,
        Event.writeResult]) :=
  ⟨⟨by decide, by decide⟩,
    c1_order_amended cfg0 envOK reqC1 "id1".toList (by decide) (by decide)⟩

/-- With pairwise-distinct keys, a Go map read returns the value paired
with the key. -/
theorem lookupA_self {β : Type} : ∀ (m : List (List Char × β)),
    (m.map Prod.fst).Nodup → ∀ kv ∈ m, lookupA m kv.1 = some kv.2 := by
  intro m
  induction m with
  | nil => intro _ kv h; cases h
  | cons hd rest ih =>
    intro hnd kv hkv
    rw [List.map_cons, List.nodup_cons] at hnd
    rcases List.mem_cons.mp hkv with heq | hmem
    · subst heq
      simp [lookupA]
    · have hne : hd.1 ≠ kv.1 := by
        intro hcontra
        exact hnd.1 (hcontra ▸ List.mem_map_of_mem Prod.fst hmem)
      simp only [lookupA, if_neg hne]
      exact ih hnd.2 kv hmem

/-- Every entry recorded by the output-collection loop carries
`file_format = TrimPrefix(Ext(filename), ".")` for the destination file
name the request maps its key to, and its `file_type` is classified from
that extension. -/
theorem collectOutputs_fileFormat (env : WorkerEnv) (commandID : List Char)
    (reqOut : List (List Char × List Char)) :
    ∀ (outs : List (List Char × List Char)) (jobDir : List Char)
      (evs : List Event) (infos : List (List Char × WOutputFileInfo)),
    (∀ kv ∈ outs, lookupA reqOut kv.1 = some kv.2) →
    collectOutputs env commandID reqOut
      (outs.map fun kv => (kv.1, goJoin jobDir kv.2)) = .ok (evs, infos) →
    ∀ key info, lookupA infos key = some info →
    ∃ filename, lookupA reqOut key = some filename ∧
      info.fileFormat = goTrimPrefix (goExt filename) ".".toList ∧
      info.fileType = getFileType info.fileFormat := by
  intro outs
  induction outs with
  | nil =>
    intro jobDir evs infos _ hco key info hlk
    simp only [List.map_nil, collectOutputs] at hco
    obtain ⟨_, rfl⟩ : evs = [] ∧ infos = [] := by
      cases hco; exact ⟨rfl, rfl⟩
    cases hlk
  | cons hd rest ih =>
    intro jobDir evs infos houts hco key info hlk
    simp only [List.map_cons, collectOutputs] at hco
    cases hstat : env.statSize (goJoin jobDir hd.2) with
    | error e => rw [hstat] at hco; cases hco
    | ok size =>
      rw [hstat] at hco
      dsimp only at hco
      cases hup : env.upload (goJoin jobDir hd.2)
          (commandID ++ '_' :: (lookupA reqOut hd.1).getD []) with
      | error e => rw [hup] at hco; cases hco
      | ok storageURL =>
        rw [hup] at hco
        dsimp only at hco
        cases hrest : collectOutputs env commandID reqOut
            (rest.map fun kv => (kv.1, goJoin jobDir kv.2)) with
        | error p => rw [hrest] at hco; obtain ⟨e1, e2⟩ := p; cases hco
        | ok p =>
          obtain ⟨evs2, infos2⟩ := p
          rw [hrest] at hco
          dsimp only at hco
          obtain ⟨rfl, rfl⟩ :
              evs = Event.uploadOut hd.1 (goJoin jobDir hd.2)
                  (commandID ++ '_' :: (lookupA reqOut hd.1).getD []) ::
                evs2 ∧
              infos = (hd.1,
                { fileID := commandID ++ '_' :: hd.1
                  sizeMBytes := qdiv (size : ℚ) (qmul 1024 1024)
                  fileType := getFileType (goTrimPrefix
                    (goExt ((lookupA reqOut hd.1).getD [])) ".".toList)
                  fileFormat := goTrimPrefix
                    (goExt ((lookupA reqOut hd.1).getD [])) ".".toList
                  storageURL := storageURL
                  width := (if getFileType (goTrimPrefix
                      (goExt ((lookupA reqOut hd.1).getD [])) ".".toList) =
                        "video".toList ∨
                      getFileType (goTrimPrefix
                        (goExt ((lookupA reqOut hd.1).getD []))
                          ".".toList) = "image".toList then
                      env.probeDims (goJoin jobDir hd.2)
                    else (0, 0)).1
                  height := (if getFileType (goTrimPrefix
                      (goExt ((lookupA reqOut hd.1).getD [])) ".".toList) =
                        "video".toList ∨
                      getFileType (goTrimPrefix
                        (goExt ((lookupA reqOut hd.1).getD []))
                          ".".toList) = "image".toList then
                      env.probeDims (goJoin jobDir hd.2)
                    else (0, 0)).2 }) :: infos2 := by
            cases hco; exact ⟨rfl, rfl⟩
          rw [lookupA] at hlk
          by_cases hkey : hd.1 = key
          · rw [if_pos hkey] at hlk
            have hfn : lookupA reqOut hd.1 = some hd.2 :=
              houts hd (by simp)
            injection hlk with hinfo
            refine ⟨hd.2, hkey ▸ hfn, ?_, ?_⟩
            · rw [← hinfo]
              simp [hfn]
            · rw [← hinfo]
          · rw [if_neg hkey] at hlk
            exact ih jobDir evs2 infos2
              (fun kv hkv => houts kv (by simp [hkv])) hrest key info hlk

/-- C4 counterexample: for the destination file name `T.JPG` the Result
records `file_format = "JPG"` — the extension without the leading dot but
*not* lowercased, contrary to the claimed `"jpg"`. -/
theorem c4_fileformat_cex :
    recordedFileFormat (handleFFmpegCommand cfg0 envOK reqC4 "id1".toList)
      "out_1".toList = some "JPG".toList ∧
    "JPG".toList ≠
      goToLower (goTrimPrefix (goExt "T.JPG".toList) ".".toList) ∧
    goToLower (goTrimPrefix (goExt "T.JPG".toList) ".".toList) =
      "jpg".toList := by decide

/-- C4 (amended): for every output entry recorded in a Result, the
`file_format` field equals the extension of the requested destination
file name without the leading dot, *with the original case preserved*
(lowercasing happens only inside the `file_type` classification). -/
theorem c4_fileformat_amended (cfg : WorkerCfg) (env : WorkerEnv)
    (req : WCommandRequest) (commandID : List Char) (r : WCommandResult)
    (key : List Char) (info : WOutputFileInfo)
    (hnd : (req.outputFiles.map Prod.fst).Nodup)
    (hok : (handleFFmpegCommand cfg env req commandID).2 = .ok r)
    (hlk : lookupA r.outputFiles key = some info) :
    ∃ filename, lookupA req.outputFiles key = some filename ∧
      info.fileFormat = goTrimPrefix (goExt filename) ".".toList ∧
      info.fileType = getFileType info.fileFormat := by
  unfold handleFFmpegCommand at hok
  by_cases hres : cfg.resourcesEnabled = true ∧
      (checkResourcesAvailable env.memPercent env.fmtFloat1
        cfg.maxMemoryPercent).1 = false
  · rw [if_pos hres] at hok
    cases hok
  · rw [if_neg hres] at hok
    cases hdl : downloadInputs env (goJoin cfg.workDir commandID)
        req.inputFiles with
    | error p =>
      obtain ⟨evs, msg⟩ := p
      rw [hdl] at hok
      cases hok
    | ok p =>
      obtain ⟨dlEvs, inputPaths⟩ := p
      rw [hdl] at hok
      dsimp only at hok
      cases hex : execCommands env inputPaths
          (req.outputFiles.map fun kv => (kv.1, goJoin
            (goJoin cfg.workDir commandID) kv.2))
          (firstDurationMS env inputPaths) 1
          (if req.ffmpegCommands ≠ [] then req.ffmpegCommands
           else if req.ffmpegCommand ≠ [] then [req.ffmpegCommand]
           else []) with
      | error p =>
        obtain ⟨evs, msg⟩ := p
        rw [hex] at hok
        cases hok
      | ok runEvs =>
        rw [hex] at hok
        dsimp only at hok
        cases hco : collectOutputs env commandID req.outputFiles
            (req.outputFiles.map fun kv => (kv.1, goJoin
              (goJoin cfg.workDir commandID) kv.2)) with
        | error p =>
          obtain ⟨evs, msg⟩ := p
          rw [hco] at hok
          cases hok
        | ok p =>
          obtain ⟨upEvs, outputFiles⟩ := p
          rw [hco] at hok
          dsimp only at hok
          have hr : r = ⟨outputFiles, env.hwAccelType⟩ := by
            cases hok; rfl
          subst hr
          exact collectOutputs_fileFormat env commandID req.outputFiles
            req.outputFiles (goJoin cfg.workDir commandID) upEvs
            outputFiles (fun kv hkv => lookupA_self req.outputFiles hnd kv hkv)
            hco key info hlk

/-- Witness for `c4_fileformat_amended` on the `T.JPG` fixture. -/
theorem c4_fileformat_amended_witness :
    ((reqC4.outputFiles.map Prod.fst).Nodup ∧
      (handleFFmpegCommand cfg0 envOK reqC4 "id1".toList).2 =
        .ok resC4 ∧
      lookupA resC4.outputFiles "out_1".toList = some infoC4) ∧
    (∃ filename, lookupA reqC4.outputFiles "out_1".toList =
        some filename ∧
      infoC4.fileFormat = goTrimPrefix (goExt filename) ".".toList ∧
      infoC4.fileType = getFileType infoC4.fileFormat) :=
  ⟨⟨by decide, by decide, by decide⟩,
    c4_fileformat_amended cfg0 envOK reqC4 "id1".toList resC4
      "out_1".toList infoC4 (by decide) (by decide) (by decide)⟩

/-- When every download succeeds, the download loop performs one download
event per input, in order, at the derived local path, and returns the
input-path map. -/
theorem downloadInputs_all_ok (env : WorkerEnv) (jobDir : List Char)
    (hdl : ∀ u d, env.download u d = .ok ()) :
    ∀ l : List (List Char × List Char),
    downloadInputs env jobDir l =
      .ok (l.map fun ku => Event.download ku.1 ku.2
            (inputDownloadPath jobDir ku.1 ku.2),
          l.map fun ku => (ku.1, inputDownloadPath jobDir ku.1 ku.2)) := by
  intro l
  induction l with
  | nil => rfl
  | cons ku rest ih =>
    obtain ⟨key, url⟩ := ku
    simp only [downloadInputs, hdl url, ih, List.map_cons]

/-- C5 counterexample: for the input URL `http://x/video?fmt=a.png` the
URL's *path* has no extension (so the claimed rule requires the `.mp4`
fallback), yet the code applies `filepath.Ext` to the whole URL string
and derives `.png` from the query string; the file is downloaded to
`<workspace>/in_1.png`, not `<workspace>/in_1.mp4`. -/
theorem c5_download_ext_cex :
    goExt "/video".toList = [] ∧
    downloadExt "http://x/video?fmt=a.png".toList = ".png".toList ∧
    downloadExt "http://x/video?fmt=a.png".toList ≠ ".mp4".toList ∧
    (handleFFmpegCommand cfg0 envOK reqC5 "id1".toList).1.contains
      (Event.download "in_1".toList "http://x/video?fmt=a.png".toList
        "/tmp/ffmpeg-jobs/id1/in_1.png".toList) = true := by decide

/-- C5 (amended): the Processor derives the download extension with
`filepath.Ext` applied to the *entire URL string* (the suffix from the
final dot after the last `/`, so query-string text participates), falls
back to `.mp4` when that extension is missing or longer than 5 runes
including the dot, and downloads each input `(key, url)` to
`<workspace>/<key><ext>`. -/
theorem c5_download_ext_amended (cfg : WorkerCfg) (env : WorkerEnv)
    (req : WCommandRequest) (commandID : List Char)
    (hres : cfg.resourcesEnabled = false)
    (hdl : ∀ u d, env.download u d = .ok ()) :
    (∀ ku ∈ req.inputFiles,
      Event.download ku.1 ku.2
        (goJoin (goJoin cfg.workDir commandID)
          (ku.1 ++ downloadExt ku.2)) ∈
        (handleFFmpegCommand cfg env req commandID).1) ∧
    (∀ url : List Char,
      (goExt url = [] ∨ 5 < (goExt url).length →
        downloadExt url = ".mp4".toList) ∧
      (goExt url ≠ [] → (goExt url).length ≤ 5 →
        downloadExt url = goExt url)) := by
  constructor
  · intro ku hku
    have hmem : Event.download ku.1 ku.2
        (inputDownloadPath (goJoin cfg.workDir commandID) ku.1 ku.2) ∈
        req.inputFiles.map fun kv => Event.download kv.1 kv.2
          (inputDownloadPath (goJoin cfg.workDir commandID) kv.1 kv.2) :=
      List.mem_map_of_mem _ hku
    unfold handleFFmpegCommand
    rw [if_neg (by simp [hres])]
    rw [downloadInputs_all_ok env _ hdl req.inputFiles]
    dsimp only
    cases hex : execCommands env
        (req.inputFiles.map fun ku => (ku.1,
          inputDownloadPath (goJoin cfg.workDir commandID) ku.1 ku.2))
        (req.outputFiles.map fun kv => (kv.1, goJoin
          (goJoin cfg.workDir commandID) kv.2))
        (firstDurationMS env (req.inputFiles.map fun ku => (ku.1,
          inputDownloadPath (goJoin cfg.workDir commandID) ku.1 ku.2))) 1
        (if req.ffmpegCommands ≠ [] then req.ffmpegCommands
         else if req.ffmpegCommand ≠ [] then [req.ffmpegCommand]
         else []) with
    | error p =>
      obtain ⟨evs, msg⟩ := p
      exact List.mem_append_left _ hmem
    | ok runEvs =>
      dsimp only
      cases hco : collectOutputs env commandID req.outputFiles
          (req.outputFiles.map fun kv => (kv.1, goJoin
            (goJoin cfg.workDir commandID) kv.2)) with
      | error p =>
        obtain ⟨evs, msg⟩ := p
        exact List.mem_append_left _ (List.mem_append_left _ hmem)
      | ok p =>
        obtain ⟨upEvs, outputFiles⟩ := p
        dsimp only
        exact List.mem_append_left _ (List.mem_append_left _
          (List.mem_append_left _ hmem))
  · intro url
    constructor
    · intro h
      unfold downloadExt
      rw [if_pos (by simpa using h)]
    · intro h1 h2
      unfold downloadExt
      rw [if_neg (by simp [h1]; omega)]

/-- Witness for `c5_download_ext_amended` on the query-string fixture. -/
theorem c5_download_ext_amended_witness :
    (cfg0.resourcesEnabled = false ∧
      ("in_1".toList, "http://x/video?fmt=a.png".toList) ∈
        reqC5.inputFiles) ∧
    Event.download "in_1".toList "http://x/video?fmt=a.png".toList
      (goJoin (goJoin cfg0.workDir "id1".toList)
        ("in_1".toList ++ downloadExt "http://x/video?fmt=a.png".toList)) ∈
      (handleFFmpegCommand cfg0 envOK reqC5 "id1".toList).1 :=
  ⟨⟨by decide, by decide⟩,
    (c5_download_ext_amended cfg0 envOK reqC5 "id1".toList (by decide)
      (fun _ _ => rfl)).1
      ("in_1".toList, "http://x/video?fmt=a.png".toList) (by decide)⟩

/-- The formula at `out_time_us = 0` is `0`. -/
theorem percentFormula_zero (durationMS : Int) :
    percentFormula durationMS 0 = 0 := by
  have h0 : ((0 : Int) / 1000 : Int) = 0 := by decide
  simp only [percentFormula, h0, Int.cast_zero, Int.cast_id]
  have hq : qdiv 0 ((durationMS : Int) : ℚ) = 0 := by
    simp [qdiv, Rat.zero_divInt]
  rw [hq]
  have hm : qmul 0 100 = 0 := by
    simp [qmul, Rat.zero_divInt]
  rw [hm]
  simp

/-- The code's cap `if 100 < p then 100 else p` is `min 100 p`. -/
theorem ite_cap_eq_min (p : ℚ) :
    (if 100 < p then (100 : ℚ) else p) = min 100 p := by
  rcases le_or_lt p 100 with h | h
  · rw [if_neg (not_lt.mpr h), min_eq_right h]
  · rw [if_pos h, min_eq_left h.le]

/-- A line that is not a progress line emits no callback and preserves the
parser invariant (zero `out_time_us` goes with zero percent; `out_time_us`
stays non-negative). -/
theorem progressStep_nonprogress (durationMS : Int) (st : FFmpegProgress)
    (line : List Char) (hline : isProgressLine line = false)
    (hout : outLineOK line = true)
    (hInv : st.outTimeUS = 0 → st.percentDone = 0)
    (hPos : 0 ≤ st.outTimeUS) :
    (progressStep durationMS st line).2 = none ∧
    ((progressStep durationMS st line).1.outTimeUS = 0 →
      (progressStep durationMS st line).1.percentDone = 0) ∧
    0 ≤ (progressStep durationMS st line).1.outTimeUS := by
  unfold progressStep
  unfold isProgressLine lineKeyVal at hline
  unfold outLineOK lineKeyVal at hout
  cases hsp : splitEq2 line with
  | none => exact ⟨rfl, hInv, hPos⟩
  | some kv =>
    obtain ⟨k, v⟩ := kv
    rw [hsp] at hline hout
    dsimp only [Option.map] at hline hout
    dsimp only
    by_cases hc1 : goTrimSpace k = "frame".toList
    · rw [if_pos hc1]; exact ⟨rfl, hInv, hPos⟩
    rw [if_neg hc1]
    by_cases hc2 : goTrimSpace k = "fps".toList
    · rw [if_pos hc2]; exact ⟨rfl, hInv, hPos⟩
    rw [if_neg hc2]
    by_cases hc3 : goTrimSpace k = "bitrate".toList
    · rw [if_pos hc3]; exact ⟨rfl, hInv, hPos⟩
    rw [if_neg hc3]
    by_cases hc4 : goTrimSpace k = "total_size".toList
    · rw [if_pos hc4]; exact ⟨rfl, hInv, hPos⟩
    rw [if_neg hc4]
    by_cases hc5 : goTrimSpace k = "out_time_us".toList
    · rw [if_pos hc5]
      have hv : 0 < parseIntGo (goTrimSpace v) := by
        rw [if_pos hc5] at hout
        by_contra hc
        rw [if_neg hc] at hout
        cases hout
      refine ⟨rfl, ?_, hv.le⟩
      intro h0
      have h0x : parseIntGo (goTrimSpace v) = 0 := h0
      omega
    rw [if_neg hc5]
    by_cases hc6 : goTrimSpace k = "dup_frames".toList
    · rw [if_pos hc6]; exact ⟨rfl, hInv, hPos⟩
    rw [if_neg hc6]
    by_cases hc7 : goTrimSpace k = "drop_frames".toList
    · rw [if_pos hc7]; exact ⟨rfl, hInv, hPos⟩
    rw [if_neg hc7]
    by_cases hc8 : goTrimSpace k = "speed".toList
    · rw [if_pos hc8]; exact ⟨rfl, hInv, hPos⟩
    rw [if_neg hc8]
    by_cases hc9 : goTrimSpace k = "progress".toList
    · rw [if_pos hc9] at hline
      cases hline
    rw [if_neg hc9]
    exact ⟨rfl, hInv, hPos⟩

/-- A progress line emits exactly one callback whose record carries the
current `out_time_us` and the percent `min(100, (out/1000)/dur*100)` (the
untouched `0` when no positive `out_time_us` has been seen, which is the
formula's value at `0`); when the line is not `progress=end`, the
post-line state is the emitted record itself. -/
theorem progressStep_progress (durationMS : Int) (st : FFmpegProgress)
    (line : List Char) (hdur : 0 < durationMS)
    (hline : isProgressLine line = true)
    (hInv : st.outTimeUS = 0 → st.percentDone = 0)
    (hPos : 0 ≤ st.outTimeUS) :
    ∃ e, (progressStep durationMS st line).2 = some e ∧
      e.outTimeUS = st.outTimeUS ∧
      e.percentDone = percentFormula durationMS st.outTimeUS ∧
      (isEndProgressLine line = false →
        (progressStep durationMS st line).1 = e) := by
  unfold progressStep
  unfold isProgressLine lineKeyVal at hline
  unfold isEndProgressLine lineKeyVal
  cases hsp : splitEq2 line with
  | none => rw [hsp] at hline; cases hline
  | some kv =>
    obtain ⟨k, v⟩ := kv
    rw [hsp] at hline
    dsimp only [Option.map] at hline ⊢
    have hc9 : goTrimSpace k = "progress".toList := by
      by_contra hc
      rw [if_neg hc] at hline
      cases hline
    rw [hc9]
    rw [if_neg (by decide : ¬("progress".toList = "frame".toList)),
      if_neg (by decide : ¬("progress".toList = "fps".toList)),
      if_neg (by decide : ¬("progress".toList = "bitrate".toList)),
      if_neg (by decide : ¬("progress".toList = "total_size".toList)),
      if_neg (by decide : ¬("progress".toList = "out_time_us".toList)),
      if_neg (by decide : ¬("progress".toList = "dup_frames".toList)),
      if_neg (by decide : ¬("progress".toList = "drop_frames".toList)),
      if_neg (by decide : ¬("progress".toList = "speed".toList)),
      if_pos (rfl : "progress".toList = "progress".toList)]
    refine ⟨_, rfl, rfl, ?_, ?_⟩
    · dsimp only
      rcases lt_or_le 0 st.outTimeUS with hgt | hle
      · rw [if_pos ⟨hdur, hgt⟩, ite_cap_eq_min]
        rfl
      · have h0 : st.outTimeUS = 0 := le_antisymm hle hPos
        rw [if_neg (by rw [h0]; simp), hInv h0, h0, percentFormula_zero]
    · intro hend
      have hvne : ¬ (goTrimSpace v = "end".toList) := by
        intro hveq
        rw [if_pos ⟨rfl, hveq⟩] at hend
        cases hend
      dsimp only
      rw [if_neg hvne]

/-- A non-progress line never triggers the callback. -/
theorem progressStep_none (durationMS : Int) (st : FFmpegProgress)
    (line : List Char) (hline : isProgressLine line = false) :
    (progressStep durationMS st line).2 = none := by
  unfold progressStep
  unfold isProgressLine lineKeyVal at hline
  cases hsp : splitEq2 line with
  | none => rfl
  | some kv =>
    obtain ⟨k, v⟩ := kv
    rw [hsp] at hline
    dsimp only [Option.map] at hline
    dsimp only
    by_cases hc1 : goTrimSpace k = "frame".toList
    · rw [if_pos hc1]
    rw [if_neg hc1]
    by_cases hc2 : goTrimSpace k = "fps".toList
    · rw [if_pos hc2]
    rw [if_neg hc2]
    by_cases hc3 : goTrimSpace k = "bitrate".toList
    · rw [if_pos hc3]
    rw [if_neg hc3]
    by_cases hc4 : goTrimSpace k = "total_size".toList
    · rw [if_pos hc4]
    rw [if_neg hc4]
    by_cases hc5 : goTrimSpace k = "out_time_us".toList
    · rw [if_pos hc5]
    rw [if_neg hc5]
    by_cases hc6 : goTrimSpace k = "dup_frames".toList
    · rw [if_pos hc6]
    rw [if_neg hc6]
    by_cases hc7 : goTrimSpace k = "drop_frames".toList
    · rw [if_pos hc7]
    rw [if_neg hc7]
    by_cases hc8 : goTrimSpace k = "speed".toList
    · rw [if_pos hc8]
    rw [if_neg hc8]
    by_cases hc9 : goTrimSpace k = "progress".toList
    · rw [if_pos hc9] at hline
      cases hline
    rw [if_neg hc9]

/-- Unfolding: a line whose step emits a record. -/
theorem parseProgressFrom_cons_some {durationMS : Int}
    {st st2 : FFmpegProgress} {line : List Char} {rest : List (List Char)}
    {e : FFmpegProgress} (h : progressStep durationMS st line = (st2, some e)) :
    parseProgressFrom durationMS st (line :: rest) =
      e :: parseProgressFrom durationMS st2 rest := by
  rw [parseProgressFrom, h]

/-- Unfolding: a line whose step emits nothing. -/
theorem parseProgressFrom_cons_none {durationMS : Int}
    {st st2 : FFmpegProgress} {line : List Char} {rest : List (List Char)}
    (h : progressStep durationMS st line = (st2, none)) :
    parseProgressFrom durationMS st (line :: rest) =
      parseProgressFrom durationMS st2 rest := by
  rw [parseProgressFrom, h]

/-- Without progress lines the parser invokes the callback never. -/
theorem parseProgressFrom_noProgress (durationMS : Int) :
    ∀ (lines : List (List Char)) (st : FFmpegProgress),
    noProgressLines lines = true →
    parseProgressFrom durationMS st lines = [] := by
  intro lines
  induction lines with
  | nil => intro st _; rfl
  | cons l rest ih =>
    intro st hnp
    rw [noProgressLines, List.all_cons, Bool.and_eq_true] at hnp
    have hl : isProgressLine l = false := by
      cases h : isProgressLine l
      · rfl
      · rw [h] at hnp; cases hnp.1
    have h2 := progressStep_none durationMS st l hl
    have hpair : progressStep durationMS st l =
        ((progressStep durationMS st l).1, none) := by
      rw [← h2]
    rw [parseProgressFrom_cons_none hpair]
    exact ih _ hnp.2

/-- An end-progress line is a progress line. -/
theorem isProgressLine_of_end {line : List Char}
    (h : isEndProgressLine line = true) : isProgressLine line = true := by
  unfold isEndProgressLine at h
  unfold isProgressLine
  cases hkv : lineKeyVal line with
  | none => rw [hkv] at h; cases h
  | some kv =>
    rw [hkv] at h
    dsimp only at h ⊢
    by_cases hc : kv.1 = "progress".toList ∧ kv.2 = "end".toList
    · rw [if_pos hc.1]
    · rw [if_neg hc] at h
      cases h

/-- Main induction for C6: on well-formed tool output the callback fires
once per progress line and always reports
`min(100, (out_time_us/1000)/duration_ms*100)`. -/
theorem parseProgressFrom_spec (durationMS : Int) (hdur : 0 < durationMS) :
    ∀ (lines : List (List Char)) (st : FFmpegProgress),
    progressValuesOK lines = true → outValuesPositive lines = true →
    endIsLastProgress lines = true →
    (st.outTimeUS = 0 → st.percentDone = 0) → 0 ≤ st.outTimeUS →
    (parseProgressFrom durationMS st lines).length =
      lines.countP isProgressLine ∧
    ∀ e ∈ parseProgressFrom durationMS st lines,
      e.percentDone = percentFormula durationMS e.outTimeUS := by
  intro lines
  induction lines with
  | nil => intro st _ _ _ _ _; simp [parseProgressFrom]
  | cons l rest ih =>
    intro st hvals hout hend hInv hPos
    rw [progressValuesOK, List.all_cons, Bool.and_eq_true] at hvals
    rw [outValuesPositive, List.all_cons, Bool.and_eq_true] at hout
    cases hl : isProgressLine l with
    | false =>
      obtain ⟨hnone, hInv2, hPos2⟩ := progressStep_nonprogress durationMS
        st l hl hout.1 hInv hPos
      have hpair : progressStep durationMS st l =
          ((progressStep durationMS st l).1, none) := by
        rw [← hnone]
      rw [parseProgressFrom_cons_none hpair]
      have hendl : isEndProgressLine l = false := by
        cases he : isEndProgressLine l
        · rfl
        · rw [isProgressLine_of_end he] at hl; cases hl
      rw [endIsLastProgress, if_neg (by rw [hendl]; exact Bool.false_ne_true)]
        at hend
      obtain ⟨ihlen, ihpct⟩ := ih _ hvals.2 hout.2 hend hInv2 hPos2
      constructor
      · rw [ihlen, List.countP_cons, hl]
        simp
      · exact ihpct
    | true =>
      obtain ⟨e, hsome, houteq, hpct, hstate⟩ := progressStep_progress
        durationMS st l hdur hl hInv hPos
      have hpair : progressStep durationMS st l =
          ((progressStep durationMS st l).1, some e) := by
        rw [← hsome]
      rw [parseProgressFrom_cons_some hpair]
      have hpct2 : e.percentDone = percentFormula durationMS e.outTimeUS := by
        rw [hpct, houteq]
      cases hendl : isEndProgressLine l with
      | true =>
        rw [endIsLastProgress, if_pos hendl] at hend
        rw [parseProgressFrom_noProgress durationMS rest _ hend]
        have hcnt : rest.countP isProgressLine = 0 := by
          rw [List.countP_eq_zero]
          intro a ha
          rw [noProgressLines, List.all_eq_true] at hend
          have := hend a ha
          simpa using this
        constructor
        · rw [List.countP_cons, hl, hcnt]
          simp
        · intro e2 he2
          rw [List.mem_singleton] at he2
          rw [he2]
          exact hpct2
      | false =>
        rw [endIsLastProgress, if_neg (by rw [hendl]; exact
          Bool.false_ne_true)] at hend
        have hInv2 : e.outTimeUS = 0 → e.percentDone = 0 := by
          intro h0
          rw [hpct2, h0, percentFormula_zero]
        have hPos2 : 0 ≤ e.outTimeUS := houteq ▸ hPos
        rw [hstate hendl]
        obtain ⟨ihlen, ihpct⟩ := ih e hvals.2 hout.2 hend hInv2 hPos2
        constructor
        · rw [List.length_cons, ihlen, List.countP_cons, hl]
          simp
        · intro e2 he2
          rcases List.mem_cons.mp he2 with rfl | hmem
          · exact hpct2
          · exact ihpct e2 hmem

/-- C6: when the input duration is known (`durationMS > 0`), on
well-formed tool output — every `progress` line carries `continue` or
`end`, `out_time_us` values parse positive, and `progress=end` closes the
stream — the parser invokes the progress callback exactly once per
`progress=continue|end` line, and every reported percent equals
`min(100, (out_time_us/1000)/duration_ms*100)` (integer division by
1000, as in the code). -/
theorem c6_progress_callback (durationMS : Int) (lines : List (List Char))
    (hdur : 0 < durationMS)
    (hvals : progressValuesOK lines = true)
    (hout : outValuesPositive lines = true)
    (hend : endIsLastProgress lines = true) :
    (parseProgress durationMS lines).length =
      lines.countP isProgressLine ∧
    ∀ e ∈ parseProgress durationMS lines,
      e.percentDone = percentFormula durationMS e.outTimeUS := by
  unfold parseProgress
  exact parseProgressFrom_spec durationMS hdur lines { } hvals hout hend
    (fun _ => rfl) (le_refl 0)

/-- Witness for `c6_progress_callback` on a concrete stream: two
callbacks, at 50 % and 100 %. -/
theorem c6_progress_callback_witness :
    ((0 : Int) < 3000 ∧ progressValuesOK c6lines = true ∧
      outValuesPositive c6lines = true ∧
      endIsLastProgress c6lines = true) ∧
    ((parseProgress 3000 c6lines).length =
        c6lines.countP isProgressLine ∧
      ∀ e ∈ parseProgress 3000 c6lines,
        e.percentDone = percentFormula 3000 e.outTimeUS) :=
  ⟨⟨by decide, by decide, by decide, by decide⟩,
    c6_progress_callback 3000 c6lines (by decide) (by decide) (by decide)
      (by decide)⟩
